import Mathlib

/-!
Verification of the `namespacedkey` repository.

The repository contains two implementations of namespaced identifiers:

* the core crate (`crates/namespacedkey_core/src/lib.rs`): a generic
  `Identifier<T>` with a phantom kind tag, an interned namespace, a
  default namespace, and `new` / `parse` constructors returning
  `Result<_, ParseError>`;
* the legacy crate (`src/namespaced_key.rs` plus `src/util` and
  `src/constants`): a simple `NamespacedKey` with owned strings, a
  character-allowlist validator `check_string`, and a two-line underline
  diagnostic `make_underline_message`.

Strings are embedded as `List Char` (Rust `String` is a sequence of
chars; byte offsets are recovered with `Char.utf8Size`, which is what
Rust's `char_indices` advances by).  Rust functions that can panic are
embedded with an `Option` result where `none` is the panic.
-/

/-- Rust `str::char_indices` starting from byte offset `off`: each character
of the list paired with its byte offset in the UTF-8 encoding. -/
def charIndices (off : Nat) : List Char → List (Nat × Char)
  | [] => []
  | c :: cs => (off, c) :: charIndices (off + c.utf8Size) cs

/-- Rust `str::split_once` / first step of `splitn(2, sep)`: split at the
first occurrence of `sep`; `none` when `sep` does not occur. -/
def splitOnce (sep : Char) : List Char → Option (List Char × List Char)
  | [] => none
  | c :: cs =>
    if c = sep then some ([], cs)
    else (splitOnce sep cs).map (fun p => (c :: p.1, p.2))

/-! ## Core crate: `crates/namespacedkey_core/src/lib.rs` -/

/-- `DEFAULT_NAMESPACE`: the namespace used when none is provided. -/
def DEFAULT_NAMESPACE : List Char := "unspecified".data

/-- `DEFAULT_SEPARATOR`: the separator between namespace and value. -/
def DEFAULT_SEPARATOR : Char := ':'

/-- `legal_value_chars()`: the set of legal characters for values. -/
def legal_value_chars : List Char :=
  "0123456789abcdefghijklmnopqrstuvwxyz_-./".data

/-- `legal_namespace_chars()`: the set of legal characters for namespaces. -/
def legal_namespace_chars : List Char :=
  "0123456789abcdefghijklmnopqrstuvwxyz_-.".data

/-- `Identifier<T>`: a namespace plus a value, with a phantom kind tag `T`.
The Rust field `namespace` is an `Intern<String>`; interning affects
allocation only, so the field is embedded by its string content (the Rust
`PartialEq`/`Ord` instances on `Intern<String>` compare contents).  The
field is named `ns` because `namespace` is reserved in Lean. -/
structure Identifier (T : Type) where
  ns : List Char
  value : List Char
deriving DecidableEq, Repr

/-- `ParseError`: error type of the core constructors. -/
inductive ParseError where
  | EmptyValue : ParseError
  | IllegalCharsInNamespace : List Char → List (Nat × Char) → ParseError
  | IllegalCharsInValue : List Char → List (Nat × Char) → ParseError
deriving DecidableEq, Repr

/-- `Identifier::new`: reject an empty value, collect all illegal
characters of the namespace and then of the value, substitute the default
namespace for an empty one. -/
def Identifier.new (T : Type) (ns value : List Char) :
    Except ParseError (Identifier T) :=
  if value = [] then .error .EmptyValue
  else
    let bad_ns := (charIndices 0 ns).filter
      (fun p => !(legal_namespace_chars.contains p.2))
    if bad_ns ≠ [] then .error (.IllegalCharsInNamespace ns bad_ns)
    else
      let bad_val := (charIndices 0 value).filter
        (fun p => !(legal_value_chars.contains p.2))
      if bad_val ≠ [] then .error (.IllegalCharsInValue value bad_val)
      else
        .ok ⟨if ns = [] then DEFAULT_NAMESPACE else ns, value⟩

/-- `Identifier::parse`: split the input on the first `DEFAULT_SEPARATOR`
via `splitn(2, _)`; the Rust code sets `after = parts.next().unwrap_or(before)`
and then treats `before == after` as the missing-separator case, passing
`("", before)` to `new`; otherwise it passes `(before, after)`. -/
def Identifier.parse (T : Type) (s : List Char) :
    Except ParseError (Identifier T) :=
  match splitOnce DEFAULT_SEPARATOR s with
  | none => Identifier.new T [] s
  | some (before, after) =>
    if before = after then Identifier.new T [] before
    else Identifier.new T before after

/-- `Display for Identifier` / `to_string`: `namespace`, separator, `value`. -/
def Identifier.toString (id : Identifier T) : List Char :=
  id.ns ++ [DEFAULT_SEPARATOR] ++ id.value

/-- `Identifier::cast`: change the phantom type to `U`, keeping both fields. -/
def Identifier.cast (U : Type) (id : Identifier T) : Identifier U :=
  ⟨id.ns, id.value⟩

/-- `Identifier::erase`: erase type data (cast to the unit kind). -/
def Identifier.erase (id : Identifier T) : Identifier Unit :=
  id.cast Unit

/-- `PartialEq for Identifier`: equality of namespace and value contents
(`Intern<String>` equality coincides with content equality). -/
def Identifier.beq (a b : Identifier T) : Bool :=
  a.ns == b.ns && a.value == b.value

/-- Rust `Ord for String`: lexicographic on the UTF-8 bytes, which
coincides with lexicographic comparison of the code points (UTF-8 is
order-preserving). -/
def strCmp : List Char → List Char → Ordering
  | [], [] => .eq
  | [], _ :: _ => .lt
  | _ :: _, [] => .gt
  | a :: as, b :: bs =>
    if a < b then .lt
    else if b < a then .gt
    else strCmp as bs

/-- `Ord for Identifier`: compare namespaces, then values on a tie. -/
def Identifier.cmp (a b : Identifier T) : Ordering :=
  match strCmp a.ns b.ns with
  | .eq => strCmp a.value b.value
  | non_eq => non_eq

instance {ε α : Type} [DecidableEq ε] [DecidableEq α] :
    DecidableEq (Except ε α) := fun x y =>
  match x, y with
  | .ok a, .ok b =>
    if h : a = b then .isTrue (by rw [h]) else .isFalse (by simp [h])
  | .error a, .error b =>
    if h : a = b then .isTrue (by rw [h]) else .isFalse (by simp [h])
  | .ok _, .error _ => .isFalse (by simp)
  | .error _, .ok _ => .isFalse (by simp)

/-! ## Legacy crate: `src/namespaced_key.rs`, `src/util`, `src/constants` -/

/-- `VALID_NAMESPACE_CHARACTERS` (`src/constants/valid_characters.rs`): the
Rust source lists these 39 characters one by one; the string below holds
the same characters in the same order. -/
def VALID_NAMESPACE_CHARACTERS : List Char :=
  "0123456789abcdefghijklmnopqrstuvwxyz_-.".data

/-- `VALID_PATH_CHARACTERS` (`src/constants/valid_characters.rs`): the
same 39 characters plus `/`, again listed one by one in the source. -/
def VALID_PATH_CHARACTERS : List Char :=
  "0123456789abcdefghijklmnopqrstuvwxyz_-./".data

/-- `check_string` (`src/util/check_string.rs`): the byte offsets of the
characters outside the allowlist; `none` when all characters are legal. -/
def check_string (s : List Char) (allowlist : List Char) : Option (List Nat) :=
  let illegal_indices :=
    ((charIndices 0 s).filter (fun p => !(allowlist.contains p.2))).map
      Prod.fst
  if illegal_indices = [] then none else some illegal_indices

/-- Modelled from the spec: the Unicode display-width table consulted by the
diagnostic formatter (the external `unicode-width` crate, absent from the
sources): control characters have no width, combining marks are zero-width,
East Asian wide characters occupy two columns, everything else one
(restricted to the ranges this development exercises). -/
def unicodeCharWidth (c : Char) : Option Nat :=
  let n := c.toNat
  if n < 0x20 || (0x7F ≤ n && n < 0xA0) then none
  else if 0x300 ≤ n && n ≤ 0x36F then some 0
  else if (0x1100 ≤ n && n ≤ 0x115F) || (0x2E80 ≤ n && n ≤ 0xA4CF) ||
      (0xAC00 ≤ n && n ≤ 0xD7A3) || (0xF900 ≤ n && n ≤ 0xFAFF) ||
      (0xFE30 ≤ n && n ≤ 0xFE4F) || (0xFF00 ≤ n && n ≤ 0xFF60) ||
      (0xFFE0 ≤ n && n ≤ 0xFFE6) || (0x20000 ≤ n && n ≤ 0x3FFFD) then some 2
  else some 1

/-- The width the formatter charges a character:
`UnicodeWidthChar::width(ch).unwrap_or(1)`. -/
def chWidth (w : Char → Option Nat) (c : Char) : Nat := (w c).getD 1

/-- Total display width of a string under width table `w`. -/
def widthSum (w : Char → Option Nat) (l : List Char) : Nat :=
  (l.map (chWidth w)).sum

/-- The `byte_to_column` table of `make_underline_message`: one entry per
character of the input, holding its byte offset, its starting display
column, and its display width. -/
def byteToColumn (w : Char → Option Nat) (i col : Nat) :
    List Char → List (Nat × Nat × Nat)
  | [] => []
  | c :: cs =>
    (i, col, chWidth w c) ::
      byteToColumn w (i + c.utf8Size) (col + chWidth w c) cs

/-- The marker-placement loop of `make_underline_message`: each bad byte
offset is looked up in the `byte_to_column` table (offsets without an entry
are silently ignored) and `character` is written at that character's start
column; Rust's `underline_vec[start_col] = character` panics (`none` here)
when the column is not below the buffer length. -/
def applyMarkers (btc : List (Nat × Nat × Nat)) (character : Char) :
    List Nat → List Char → Option (List Char)
  | [], v => some v
  | bad :: rest, v =>
    match btc.find? (fun e => e.1 == bad) with
    | none => applyMarkers btc character rest v
    | some e =>
      if e.2.1 < v.length then
        applyMarkers btc character rest (v.set e.2.1 character)
      else none

/-- `make_underline_message` (`src/util/make_underline_message.rs`),
parameterized by the width table `w` of the external `unicode-width` crate.
Line one is label, space, input; line two is one space plus the label's
display width in spaces (the Rust `prefix` string is all ASCII spaces, so
its byte length is that count) followed by the marker buffer: a
space-filled buffer of the input's total display width (the final value of
the Rust `col` accumulator) with `character` written at the start column of
every flagged byte offset.  `none` embeds the out-of-bounds panic of the
marker write. -/
def make_underline_message (w : Char → Option Nat) (label input : List Char)
    (bad_indices : List Nat) (character : Char) : Option (List Char) :=
  let indent := 1 + widthSum w label
  let btc := byteToColumn w 0 0 input
  let col := widthSum w input
  match applyMarkers btc character bad_indices (List.replicate col ' ') with
  | none => none
  | some underline_vec =>
    some (label ++ [' '] ++ input ++ ['\n'] ++
      List.replicate indent ' ' ++ underline_vec)

/-- `InvalidKeyError` (`src/error/invalid_key_error.rs`): the namespace and
path under test plus an optional message.  The field `namespace` is
reserved in Lean and is called `ns`. -/
structure InvalidKeyError where
  ns : List Char
  path : List Char
  message : Option (List Char)
deriving DecidableEq, Repr

/-- `InvalidKeyError::new`: no message. -/
def InvalidKeyError.new (ns path : List Char) : InvalidKeyError :=
  ⟨ns, path, none⟩

/-- `InvalidKeyError::with_message`. -/
def InvalidKeyError.with_message (e : InvalidKeyError) (msg : List Char) :
    InvalidKeyError :=
  { e with message := some msg }

/-- `NamespacedKey` (`src/namespaced_key.rs`): owned namespace and path.
The field `namespace` is reserved in Lean and is called `ns`. -/
structure NamespacedKey where
  ns : List Char
  path : List Char
deriving DecidableEq, Repr

/-- `NamespacedKey::new`, parameterized by the width table used by the
underline diagnostic; `none` embeds a panic escaping from
`make_underline_message` on the error path. -/
def NamespacedKey.new (w : Char → Option Nat) (ns path : List Char) :
    Option (Except InvalidKeyError NamespacedKey) :=
  match check_string ns VALID_NAMESPACE_CHARACTERS with
  | some indices =>
    match make_underline_message w "Illegal characters in namespace:".data
        ns indices '^' with
    | none => none
    | some msg =>
      some (.error ((InvalidKeyError.new ns path).with_message msg))
  | none =>
    match check_string path VALID_PATH_CHARACTERS with
    | some indices =>
      match make_underline_message w "Illegal characters in path:".data
          path indices '^' with
      | none => none
      | some msg =>
        some (.error ((InvalidKeyError.new ns path).with_message msg))
    | none => some (.ok ⟨ns, path⟩)

/-- `NamespacedKey::to_string_with_separator`. -/
def NamespacedKey.to_string_with_separator (k : NamespacedKey)
    (separator : Char) : List Char :=
  k.ns ++ [separator] ++ k.path

/-- `Display for NamespacedKey` / `to_string`: namespace, `:`, path. -/
def NamespacedKey.toString (k : NamespacedKey) : List Char :=
  k.ns ++ [':'] ++ k.path

/-- The message of the missing-separator error of
`from_str_with_separator`. -/
def missingSeparatorMessage (separator : Char) (string : List Char) :
    List Char :=
  "Missing separator `".data ++ [separator] ++ "` in key: `".data ++
    string ++ "`".data

/-- `NamespacedKey::from_str_with_separator`: split at the first occurrence
of `separator` and delegate to `new`; a missing separator is an error. -/
def NamespacedKey.from_str_with_separator (w : Char → Option Nat)
    (string : List Char) (separator : Char) :
    Option (Except InvalidKeyError NamespacedKey) :=
  match splitOnce separator string with
  | some (ns, p) => NamespacedKey.new w ns p
  | none =>
    some (.error ((InvalidKeyError.new string []).with_message
      (missingSeparatorMessage separator string)))

/-- `FromStr for NamespacedKey`: `from_str_with_separator` with `:`. -/
def NamespacedKey.from_str (w : Char → Option Nat) (s : List Char) :
    Option (Except InvalidKeyError NamespacedKey) :=
  NamespacedKey.from_str_with_separator w s ':'

/-! ## Supporting definitions -/

/-- Byte length of the UTF-8 encoding of a string. -/
def utf8Sum (l : List Char) : Nat := (l.map Char.utf8Size).sum

/-- Whether underline column `j` receives a marker: some flagged byte
offset resolves, through the `byte_to_column` table, to a character whose
start column is `j`. -/
def markedCol (w : Char → Option Nat) (input : List Char)
    (bad_indices : List Nat) (j : Nat) : Bool :=
  bad_indices.any (fun b =>
    ((byteToColumn w 0 0 input).find? (fun e => e.1 == b)).any
      (fun e => e.2.1 == j))

/-! ## Supporting lemmas -/

/-- Fidelity check: the embedding reproduces, character for character, the
expected underline of the repository's own test
`creates_error_when_given_invalid_namespace`
(`tests/namespaced_key_test.rs`). -/
theorem legacy_new_reproduces_repo_test :
    NamespacedKey.new unicodeCharWidth "!nvalid_name$pace!///".data
        "valid_path".data =
      some (.error ⟨"!nvalid_name$pace!///".data, "valid_path".data,
        some ("Illegal characters in namespace: !nvalid_name$pace!///\n                                 ^           ^    ^^^^".data)⟩) := by
  decide

theorem utf8Sum_nil : utf8Sum [] = 0 := rfl

theorem utf8Sum_cons (c : Char) (l : List Char) :
    utf8Sum (c :: l) = c.utf8Size + utf8Sum l := by
  simp [utf8Sum]

theorem widthSum_nil (w : Char → Option Nat) : widthSum w [] = 0 := rfl

theorem widthSum_cons (w : Char → Option Nat) (c : Char) (l : List Char) :
    widthSum w (c :: l) = chWidth w c + widthSum w l := by
  simp [widthSum]

theorem charIndices_eq_zip (l : List Char) : ∀ off,
    charIndices off l =
      ((List.range l.length).map (fun k => off + utf8Sum (l.take k))).zip
        l := by
  induction l with
  | nil => intro off; rfl
  | cons c cs ih =>
    intro off
    simp only [charIndices, List.length_cons, List.range_succ_eq_map,
      List.map_cons, List.take_zero, utf8Sum_nil, Nat.add_zero,
      List.map_map, List.zip_cons_cons, List.cons.injEq, true_and]
    rw [ih (off + c.utf8Size)]
    congr 1
    apply List.map_congr_left
    intro k _
    simp [Function.comp, List.take_succ_cons, utf8Sum_cons, Nat.add_assoc]

theorem charIndices_filter_map_snd (P : Char → Bool) :
    ∀ (l : List Char) (off : Nat),
      ((charIndices off l).filter (fun q => P q.2)).map Prod.snd =
        l.filter P := by
  intro l
  induction l with
  | nil => intro off; rfl
  | cons c cs ih =>
    intro off
    by_cases h : P c <;>
      simp [charIndices, List.filter_cons, h, ih (off + c.utf8Size)]

theorem le_fst_of_mem_charIndices :
    ∀ {l : List Char} {off : Nat} {p : Nat × Char},
      p ∈ charIndices off l → off ≤ p.1 := by
  intro l
  induction l with
  | nil => intro off p h; simp [charIndices] at h
  | cons c cs ih =>
    intro off p h
    simp only [charIndices, List.mem_cons] at h
    rcases h with h | h
    · subst h; exact Nat.le_refl _
    · exact Nat.le_trans (Nat.le_add_right _ _) (ih h)

theorem charIndices_pairwise_fst :
    ∀ (l : List Char) (off : Nat),
      (charIndices off l).Pairwise (fun p q => p.1 < q.1) := by
  intro l
  induction l with
  | nil => intro off; exact List.Pairwise.nil
  | cons c cs ih =>
    intro off
    refine List.pairwise_cons.mpr ⟨fun q hq => ?_, ih (off + c.utf8Size)⟩
    exact Nat.lt_of_lt_of_le (Nat.lt_add_of_pos_right c.utf8Size_pos)
      (le_fst_of_mem_charIndices hq)

theorem charIndices_filter_fst_sorted (P : Nat × Char → Bool)
    (l : List Char) (off : Nat) :
    (((charIndices off l).filter P).map Prod.fst).Pairwise (· < ·) := by
  rw [List.pairwise_map]
  exact (charIndices_pairwise_fst l off).sublist (List.filter_sublist _)

theorem splitOnce_eq_none (sep : Char) :
    ∀ (l : List Char), sep ∉ l → splitOnce sep l = none := by
  intro l
  induction l with
  | nil => intro _; rfl
  | cons c cs ih =>
    intro h
    simp only [List.mem_cons, not_or] at h
    simp [splitOnce, Ne.symm h.1, ih h.2]

theorem splitOnce_append (sep : Char) :
    ∀ (l₁ l₂ : List Char), sep ∉ l₁ →
      splitOnce sep (l₁ ++ sep :: l₂) = some (l₁, l₂) := by
  intro l₁
  induction l₁ with
  | nil => intro l₂ _; simp [splitOnce]
  | cons c cs ih =>
    intro l₂ h
    simp only [List.mem_cons, not_or] at h
    simp [splitOnce, Ne.symm h.1, ih l₂ h.2]

theorem strCmp_eq_iff : ∀ (l₁ l₂ : List Char), strCmp l₁ l₂ = .eq ↔ l₁ = l₂ := by
  intro l₁
  induction l₁ with
  | nil =>
    intro l₂
    cases l₂ with
    | nil => simp [strCmp]
    | cons b bs => simp [strCmp]
  | cons a as ih =>
    intro l₂
    cases l₂ with
    | nil => simp [strCmp]
    | cons b bs =>
      by_cases h1 : a < b
      · have hne : a ≠ b := ne_of_lt h1
        simp [strCmp, h1, hne]
      · by_cases h2 : b < a
        · have hne : a ≠ b := (ne_of_lt h2).symm
          simp [strCmp, h1, h2, hne]
        · have hab : a = b := le_antisymm (not_lt.mp h2) (not_lt.mp h1)
          subst hab
          simp [strCmp, h1, ih bs]

theorem map_range_set (n : Nat) (f : Nat → Char) (i : Nat) (c : Char)
    (h : i < n) :
    ((List.range n).map f).set i c =
      (List.range n).map (fun j => if j = i then c else f j) := by
  apply List.ext_getElem
  · simp
  · intro k h1 h2
    simp only [List.length_set, List.length_map, List.length_range] at h1 h2
    by_cases hk : k = i
    · subst hk
      simp [List.getElem_set, List.getElem_map, List.getElem_range]
    · simp [List.getElem_set, List.getElem_map, List.getElem_range,
        Ne.symm hk, hk]

theorem applyMarkers_eq (btc : List (Nat × Nat × Nat)) (ch : Char) :
    ∀ (bads : List Nat) (n : Nat) (f : Nat → Char) (v' : List Char),
      applyMarkers btc ch bads ((List.range n).map f) = some v' →
      v' = (List.range n).map (fun j =>
        if bads.any (fun b =>
            ((btc.find? (fun e => e.1 == b)).any (fun e => e.2.1 == j)))
          then ch else f j) := by
  intro bads
  induction bads with
  | nil =>
    intro n f v' h
    simp only [applyMarkers, Option.some.injEq] at h
    subst h
    simp
  | cons bad rest ih =>
    intro n f v' h
    simp only [applyMarkers] at h
    cases hfind : btc.find? (fun e => e.1 == bad) with
    | none =>
      rw [hfind] at h
      rw [ih n f v' h]
      apply congrArg (fun g => List.map g (List.range n))
      funext j
      simp [List.any_cons, hfind]
    | some e =>
      rw [hfind] at h
      simp only [List.length_map, List.length_range] at h
      by_cases hlt : e.2.1 < n
      · rw [if_pos hlt, map_range_set n f e.2.1 ch hlt] at h
        rw [ih n _ v' h]
        apply congrArg (fun g => List.map g (List.range n))
        funext j
        simp only [List.any_cons, hfind, Option.any_some]
        by_cases hr :
            rest.any (fun b =>
              ((btc.find? (fun e => e.1 == b)).any (fun e => e.2.1 == j)))
        · simp [hr]
        · by_cases hj : j = e.2.1
          · subst hj; simp [hr]
          · simp [hr, hj, Ne.symm hj]
      · rw [if_neg hlt] at h
        exact absurd h (by simp)

theorem byteToColumn_eq (w : Char → Option Nat) :
    ∀ (l : List Char) (i col : Nat),
      byteToColumn w i col l =
        List.zipWith (fun p c => (p.1, p.2, chWidth w c))
          ((List.range l.length).map
            (fun k => (i + utf8Sum (l.take k), col + widthSum w (l.take k))))
          l := by
  intro l
  induction l with
  | nil => intro i col; rfl
  | cons c cs ih =>
    intro i col
    simp only [byteToColumn, List.length_cons, List.range_succ_eq_map,
      List.map_cons, List.take_zero, utf8Sum_nil, widthSum_nil,
      Nat.add_zero, List.map_map, List.zipWith_cons_cons,
      List.cons.injEq, true_and]
    rw [ih (i + c.utf8Size) (col + chWidth w c)]
    congr 1
    apply List.map_congr_left
    intro k _
    simp [Function.comp, List.take_succ_cons, utf8Sum_cons, widthSum_cons,
      Nat.add_assoc]

theorem replicate_eq_map_range (n : Nat) (a : Char) :
    List.replicate n a = (List.range n).map (fun _ => a) := by
  rw [List.map_const', List.length_range]

theorem snd_mem_of_mem_charIndices :
    ∀ {l : List Char} {off : Nat} {p : Nat × Char},
      p ∈ charIndices off l → p.2 ∈ l := by
  intro l
  induction l with
  | nil => intro off p h; simp [charIndices] at h
  | cons c cs ih =>
    intro off p h
    simp only [charIndices, List.mem_cons] at h
    rcases h with h | h
    · subst h; exact List.mem_cons_self _ _
    · exact List.mem_cons_of_mem _ (ih h)

theorem charIndices_filter_eq_nil_iff (P : Char → Bool) (off : Nat)
    (l : List Char) :
    (charIndices off l).filter (fun q => P q.2) = [] ↔ l.filter P = [] := by
  constructor
  · intro h
    have hm := charIndices_filter_map_snd P l off
    rw [h] at hm
    exact hm.symm
  · intro h
    rw [List.filter_eq_nil_iff] at h ⊢
    intro q hq
    exact h q.2 (snd_mem_of_mem_charIndices hq)

theorem new_eq_ok (T : Type) (ns v : List Char) (hv : v ≠ [])
    (hns : ns.filter (fun c => !(legal_namespace_chars.contains c)) = [])
    (hval : v.filter (fun c => !(legal_value_chars.contains c)) = []) :
    Identifier.new T ns v =
      .ok ⟨if ns = [] then DEFAULT_NAMESPACE else ns, v⟩ := by
  have h1 : (charIndices 0 ns).filter
      (fun p => !(legal_namespace_chars.contains p.2)) = [] :=
    (charIndices_filter_eq_nil_iff _ 0 ns).mpr hns
  have h2 : (charIndices 0 v).filter
      (fun p => !(legal_value_chars.contains p.2)) = [] :=
    (charIndices_filter_eq_nil_iff _ 0 v).mpr hval
  simp only [Identifier.new, if_neg hv, ne_eq, h1, not_true_eq_false,
    if_false, h2]

theorem new_ok_inversion {T : Type} {ns v : List Char} {id : Identifier T}
    (h : Identifier.new T ns v = .ok id) :
    id.ns = (if ns = [] then DEFAULT_NAMESPACE else ns) ∧ id.value = v ∧
      v ≠ [] ∧
      ns.filter (fun c => !(legal_namespace_chars.contains c)) = [] ∧
      v.filter (fun c => !(legal_value_chars.contains c)) = [] := by
  simp only [Identifier.new] at h
  by_cases hv : v = []
  · simp [hv] at h
  · rw [if_neg hv] at h
    by_cases h1 : (charIndices 0 ns).filter
        (fun p => !(legal_namespace_chars.contains p.2)) = []
    · rw [if_neg (by simpa using h1)] at h
      by_cases h2 : (charIndices 0 v).filter
          (fun p => !(legal_value_chars.contains p.2)) = []
      · rw [if_neg (by simpa using h2)] at h
        simp only [Except.ok.injEq] at h
        subst h
        exact ⟨rfl, rfl, hv, (charIndices_filter_eq_nil_iff _ 0 ns).mp h1,
          (charIndices_filter_eq_nil_iff _ 0 v).mp h2⟩
      · rw [if_pos (by simpa using h2)] at h
        simp at h
    · rw [if_pos (by simpa using h1)] at h
      simp at h

theorem sep_not_mem_of_legal_ns {ns : List Char}
    (h : ns.filter (fun c => !(legal_namespace_chars.contains c)) = []) :
    DEFAULT_SEPARATOR ∉ ns := by
  rw [List.filter_eq_nil_iff] at h
  intro hmem
  apply h _ hmem
  have hc : legal_namespace_chars.contains DEFAULT_SEPARATOR = false := by
    decide
  rw [hc]
  rfl

theorem sep_not_mem_of_legal_value {v : List Char}
    (h : v.filter (fun c => !(legal_value_chars.contains c)) = []) :
    DEFAULT_SEPARATOR ∉ v := by
  rw [List.filter_eq_nil_iff] at h
  intro hmem
  apply h _ hmem
  have hc : legal_value_chars.contains DEFAULT_SEPARATOR = false := by
    decide
  rw [hc]
  rfl

theorem parse_toString {T : Type} {ns v : List Char} {id : Identifier T}
    (h : Identifier.new T ns v = .ok id)
    (hcase : id.ns ≠ id.value ∨ id.ns = DEFAULT_NAMESPACE) :
    Identifier.parse T id.toString = .ok id := by
  obtain ⟨hns, hval, hv, hfns, hfval⟩ := new_ok_inversion h
  have hvne : id.value ≠ [] := by rw [hval]; exact hv
  have hfns' : id.ns.filter
      (fun c => !(legal_namespace_chars.contains c)) = [] := by
    rw [hns]
    by_cases hne : ns = []
    · simp only [hne, if_pos]; decide
    · rw [if_neg hne]; exact hfns
  have hfval' : id.value.filter
      (fun c => !(legal_value_chars.contains c)) = [] := by
    rw [hval]; exact hfval
  have hnsne : id.ns ≠ [] := by
    rw [hns]
    by_cases hne : ns = []
    · simp only [hne, if_pos]; decide
    · rw [if_neg hne]; exact hne
  have hsepns : DEFAULT_SEPARATOR ∉ id.ns := sep_not_mem_of_legal_ns hfns'
  have hsplit : splitOnce DEFAULT_SEPARATOR id.toString =
      some (id.ns, id.value) := by
    have ht : id.toString = id.ns ++ DEFAULT_SEPARATOR :: id.value := by
      simp [Identifier.toString]
    rw [ht]
    exact splitOnce_append _ _ _ hsepns
  simp only [Identifier.parse, hsplit]
  by_cases hnv : id.ns = id.value
  · rw [if_pos hnv]
    have hdef : id.ns = DEFAULT_NAMESPACE := by
      rcases hcase with hc | hc
      · exact absurd hnv hc
      · exact hc
    rw [new_eq_ok T [] id.ns (by rw [hnv]; exact hvne) rfl
      (by rw [hnv]; exact hfval')]
    cases id with
    | mk i_ns i_value =>
      simp only [if_pos rfl, Except.ok.injEq, Identifier.mk.injEq]
      simp only at hnv hdef
      exact ⟨hdef.symm, hnv⟩
  · rw [if_neg hnv]
    rw [new_eq_ok T id.ns id.value hvne hfns' hfval', if_neg hnsne]

theorem parse_roundtrip {T : Type} {s : List Char} {id : Identifier T}
    (h : Identifier.parse T s = .ok id) :
    Identifier.parse T id.toString = .ok id := by
  simp only [Identifier.parse] at h
  cases hsplit : splitOnce DEFAULT_SEPARATOR s with
  | none =>
    rw [hsplit] at h
    refine parse_toString h (.inr ?_)
    obtain ⟨hns, _, _, _, _⟩ := new_ok_inversion h
    simpa using hns
  | some p =>
    obtain ⟨b, a⟩ := p
    rw [hsplit] at h
    have h' : (if b = a then Identifier.new T [] b
        else Identifier.new T b a) = .ok id := h
    by_cases hba : b = a
    · rw [if_pos hba] at h'
      refine parse_toString h' (.inr ?_)
      obtain ⟨hns, _, _, _, _⟩ := new_ok_inversion h'
      simpa using hns
    · rw [if_neg hba] at h'
      obtain ⟨hns, hval, _, _, _⟩ := new_ok_inversion h'
      by_cases hp1 : b = []
      · refine parse_toString h' (.inr ?_)
        rw [hns, if_pos hp1]
      · refine parse_toString h' (.inl ?_)
        rw [hns, if_neg hp1, hval]
        exact hba

/-! ## Claims -/

/-- Claim C1: the claimed unconditional round-trip
`parse(to_string(id)) == id` fails on the code: the identifier built by
`new("a", "a")` prints as `a:a`, which `parse` splits into equal halves and
therefore treats as namespace-less, yielding the default namespace instead
of `a`. -/
theorem roundtrip_fails_at_equal_components :
    Identifier.new Unit "a".data "a".data = .ok ⟨"a".data, "a".data⟩ ∧
    Identifier.toString (⟨"a".data, "a".data⟩ : Identifier Unit) =
      "a:a".data ∧
    Identifier.parse Unit "a:a".data =
      .ok ⟨"unspecified".data, "a".data⟩ ∧
    (⟨"unspecified".data, "a".data⟩ : Identifier Unit) ≠
      ⟨"a".data, "a".data⟩ := by
  refine ⟨by decide, by decide, by decide, by decide⟩

/-- Claim C2 (amended): only the first delimiter splits — `parse("a:b:c")`
passes namespace candidate `a` and value candidate `b:c` to `new` — but the
delimiter is not a legal value character, so the parse fails with
`IllegalCharsInValue("b:c", [(1, ':')])` instead of succeeding. -/
theorem parse_multi_delimiter_amended :
    splitOnce DEFAULT_SEPARATOR "a:b:c".data =
      some ("a".data, "b:c".data) ∧
    Identifier.parse Unit "a:b:c".data =
      Identifier.new Unit "a".data "b:c".data ∧
    legal_value_chars.contains DEFAULT_SEPARATOR = false ∧
    Identifier.new Unit "a".data "b:c".data =
      .error (.IllegalCharsInValue "b:c".data [(1, ':')]) := by
  refine ⟨by decide, by decide, by decide, by decide⟩

/-- Claim C2 (counterexample): `parse("a:b:c")` does not succeed with
namespace `a` and value `b:c`; it is an error. -/
theorem parse_multi_delimiter_cex :
    Identifier.parse Unit "a:b:c".data =
      .error (.IllegalCharsInValue "b:c".data [(1, ':')]) := by
  decide

/-- Claim C3: on `"a:a"` the delimiter is present and the text before it is
`a`, yet the code returns the default namespace: the `before == after` test
that is meant to detect a missing separator also fires when the namespace
text equals the value text. -/
theorem parse_equal_halves_defaults_namespace :
    splitOnce DEFAULT_SEPARATOR "a:a".data = some ("a".data, "a".data) ∧
    Identifier.parse Unit "a:a".data = .ok ⟨DEFAULT_NAMESPACE, "a".data⟩ ∧
    DEFAULT_NAMESPACE ≠ "a".data := by
  refine ⟨by decide, by decide, by decide⟩

/-- Claim C4: the legacy error path is not panic-free: a namespace ending in
a zero-width combining character (here U+0301) is rejected by
`check_string`, and `make_underline_message` then indexes the underline
buffer at the character's start column, which equals the buffer length —
an out-of-bounds write (`none` embeds the panic), so `NamespacedKey::new`
terminates the process instead of returning the error. -/
theorem underline_error_path_panics :
    check_string ['a', '́'] VALID_NAMESPACE_CHARACTERS = some [1] ∧
    make_underline_message unicodeCharWidth
        "Illegal characters in namespace:".data ['a', '́'] [1] '^' =
      none ∧
    NamespacedKey.new unicodeCharWidth ['a', '́'] "x".data = none := by
  refine ⟨by decide, by decide, by decide⟩

/-- Claim C5 (amended): in the core implementation, construction with an
empty value fails with `EmptyValue` (so `parse("namespace:")` fails), an
empty namespace is replaced by the default literal, and every successfully
constructed `Identifier` has a non-empty namespace and a non-empty value;
the legacy `NamespacedKey::new` performs neither check. -/
theorem core_components_nonempty :
    (∀ (T : Type) (ns : List Char),
      Identifier.new T ns [] = .error .EmptyValue) ∧
    (Identifier.parse Unit "namespace:".data = .error .EmptyValue) ∧
    (∀ (T : Type) (ns v : List Char) (id : Identifier T),
      Identifier.new T ns v = .ok id → id.ns ≠ [] ∧ id.value ≠ []) ∧
    (∀ (T : Type) (v : List Char) (id : Identifier T),
      Identifier.new T [] v = .ok id → id.ns = DEFAULT_NAMESPACE) := by
  refine ⟨?_, by decide, ?_, ?_⟩
  · intro T ns
    simp [Identifier.new]
  · intro T ns v id h
    obtain ⟨hns, hval, hv, _, _⟩ := new_ok_inversion h
    constructor
    · rw [hns]
      by_cases hne : ns = []
      · simp only [hne, if_pos]; decide
      · rw [if_neg hne]; exact hne
    · rw [hval]; exact hv
  · intro T v id h
    obtain ⟨hns, _, _, _, _⟩ := new_ok_inversion h
    simpa using hns

/-- Claim C5 (witness): the non-emptiness part applied to the concrete
construction `new("a", "b")`. -/
theorem core_components_nonempty_witness :
    ("a".data : List Char) ≠ [] ∧ ("b".data : List Char) ≠ [] :=
  core_components_nonempty.2.2.1 Unit "a".data "b".data
    ⟨"a".data, "b".data⟩ (by decide)

/-- Claim C5 (counterexample): the legacy implementation accepts an empty
path (so its `from_str("namespace:")` succeeds) and keeps an empty
namespace, so not every successfully constructed identifier in this
repository has non-empty components. -/
theorem legacy_empty_components_cex :
    NamespacedKey.new unicodeCharWidth "namespace".data [] =
      some (.ok ⟨"namespace".data, []⟩) ∧
    NamespacedKey.from_str unicodeCharWidth "namespace:".data =
      some (.ok ⟨"namespace".data, []⟩) ∧
    NamespacedKey.new unicodeCharWidth [] "path".data =
      some (.ok ⟨[], "path".data⟩) := by
  refine ⟨by decide, by decide, by decide⟩

/-- Claim C6: validation reports every offending character with its byte
offset, in scan order: the concrete example `parse("b@d/ns:stone")` fails
with exactly `[(1, '@'), (3, '/')]`; `char_indices` pairs the k-th
character with the byte length of the encoding of the characters before
it; filtering preserves all illegal characters in order; and the reported
offsets are strictly increasing. -/
theorem validation_reports_all_bad_offsets :
    (Identifier.parse Unit "b@d/ns:stone".data =
      .error (.IllegalCharsInNamespace "b@d/ns".data
        [(1, '@'), (3, '/')])) ∧
    (∀ (off : Nat) (l : List Char),
      charIndices off l =
        ((List.range l.length).map
          (fun k => off + utf8Sum (l.take k))).zip l) ∧
    (∀ (P : Char → Bool) (l : List Char) (off : Nat),
      ((charIndices off l).filter (fun q => P q.2)).map Prod.snd =
        l.filter P) ∧
    (∀ (P : Nat × Char → Bool) (l : List Char) (off : Nat),
      (((charIndices off l).filter P).map Prod.fst).Pairwise (· < ·)) :=
  ⟨by decide, fun off l => charIndices_eq_zip l off,
    charIndices_filter_map_snd, charIndices_filter_fst_sorted⟩

/-- Claim C7 (amended): `from_str_with_separator(s, sep)` splits `s` at the
first occurrence of the caller-supplied `sep` and delegates to
`NamespacedKey::new` for validation; with `sep = ':'` it is exactly the
crate's default `from_str`, and `to_string_with_separator` joins the parts
with `sep`.  Unlike the core default-delimiter `parse`, a missing
separator is an error (never a defaulted namespace) and an empty namespace
before the separator is kept empty. -/
theorem separator_variant_semantics :
    (∀ (w : Char → Option Nat) (s : List Char),
      NamespacedKey.from_str w s =
        NamespacedKey.from_str_with_separator w s ':') ∧
    (∀ (w : Char → Option Nat) (s : List Char) (sep : Char)
      (ns p : List Char),
      splitOnce sep s = some (ns, p) →
      NamespacedKey.from_str_with_separator w s sep =
        NamespacedKey.new w ns p) ∧
    (∀ (w : Char → Option Nat) (s : List Char) (sep : Char),
      splitOnce sep s = none →
      NamespacedKey.from_str_with_separator w s sep =
        some (.error ((InvalidKeyError.new s []).with_message
          (missingSeparatorMessage sep s)))) ∧
    (∀ (k : NamespacedKey) (sep : Char),
      NamespacedKey.to_string_with_separator k sep =
        k.ns ++ sep :: k.path) ∧
    (∀ (sep : Char) (l₁ l₂ : List Char), sep ∉ l₁ →
      splitOnce sep (l₁ ++ sep :: l₂) = some (l₁, l₂)) ∧
    (∀ (sep : Char) (l : List Char), sep ∉ l → splitOnce sep l = none) := by
  refine ⟨fun w s => rfl, ?_, ?_, ?_, splitOnce_append, splitOnce_eq_none⟩
  · intro w s sep ns p h
    simp [NamespacedKey.from_str_with_separator, h]
  · intro w s sep h
    simp [NamespacedKey.from_str_with_separator, h]
  · intro k sep
    simp [NamespacedKey.to_string_with_separator]

/-- Claim C7 (witness): the splitting part applied to the concrete input
`foo>bar` with separator `>`. -/
theorem separator_variant_semantics_witness :
    NamespacedKey.from_str_with_separator unicodeCharWidth "foo>bar".data
        '>' =
      NamespacedKey.new unicodeCharWidth "foo".data "bar".data :=
  separator_variant_semantics.2.1 unicodeCharWidth "foo>bar".data '>'
    "foo".data "bar".data (by decide)

/-- Claim C7 (counterexample): the variant's semantics are not identical to
the default-delimiter `parse` for every input: on `"x"` (no separator) the
core `parse` succeeds with the default namespace while the variant returns
a missing-separator error, and on `":x"` the variant keeps the empty
namespace instead of defaulting it. -/
theorem separator_variant_cex :
    Identifier.parse Unit "x".data =
      .ok ⟨DEFAULT_NAMESPACE, "x".data⟩ ∧
    NamespacedKey.from_str_with_separator unicodeCharWidth "x".data ':' =
      some (.error ⟨"x".data, [],
        some (missingSeparatorMessage ':' "x".data)⟩) ∧
    NamespacedKey.from_str_with_separator unicodeCharWidth ":x".data ':' =
      some (.ok ⟨[], "x".data⟩) := by
  refine ⟨by decide, by decide, by decide⟩

/-- Claim C8: two identifiers are equal exactly when their namespaces and
values are equal; the phantom kind does not participate (casting both sides
changes neither equality nor comparison); comparison is lexicographic —
namespace first, then value — and in particular `a:z < b:a` and
`a:a < a:b`. -/
theorem equality_and_ordering_lexicographic :
    (∀ (T : Type) (a b : Identifier T),
      Identifier.beq a b = true ↔ a.ns = b.ns ∧ a.value = b.value) ∧
    (∀ (T U : Type) (a b : Identifier T),
      Identifier.beq (a.cast U) (b.cast U) = Identifier.beq a b ∧
      Identifier.cmp (a.cast U) (b.cast U) = Identifier.cmp a b) ∧
    (∀ (T : Type) (a b : Identifier T),
      Identifier.cmp a b = .eq ↔ a = b) ∧
    (∀ (T : Type) (a b : Identifier T), a.ns = b.ns →
      Identifier.cmp a b = strCmp a.value b.value) ∧
    (∀ (T : Type) (a b : Identifier T), strCmp a.ns b.ns ≠ .eq →
      Identifier.cmp a b = strCmp a.ns b.ns) ∧
    Identifier.cmp (⟨"a".data, "z".data⟩ : Identifier Unit)
      ⟨"b".data, "a".data⟩ = .lt ∧
    Identifier.cmp (⟨"a".data, "a".data⟩ : Identifier Unit)
      ⟨"a".data, "b".data⟩ = .lt := by
  refine ⟨?_, fun T U a b => ⟨rfl, rfl⟩, ?_, ?_, ?_, by decide, by decide⟩
  · intro T a b
    simp [Identifier.beq, Bool.and_eq_true, beq_iff_eq]
  · intro T a b
    constructor
    · intro h
      cases hns : strCmp a.ns b.ns with
      | eq =>
        have h1 : a.ns = b.ns := (strCmp_eq_iff _ _).mp hns
        have h2 : strCmp a.value b.value = .eq := by
          simpa [Identifier.cmp, hns] using h
        have h3 : a.value = b.value := (strCmp_eq_iff _ _).mp h2
        cases a; cases b
        simp_all
      | lt => simp [Identifier.cmp, hns] at h
      | gt => simp [Identifier.cmp, hns] at h
    · intro h
      subst h
      simp [Identifier.cmp, (strCmp_eq_iff a.ns a.ns).mpr rfl,
        (strCmp_eq_iff a.value a.value).mpr rfl]
  · intro T a b h
    simp [Identifier.cmp, (strCmp_eq_iff a.ns b.ns).mpr h]
  · intro T a b h
    cases hns : strCmp a.ns b.ns with
    | eq => exact absurd hns h
    | lt => simp [Identifier.cmp, hns]
    | gt => simp [Identifier.cmp, hns]

/-- Claim C8 (witness): the tie-on-namespace part applied to the concrete
identifiers `a:a` and `a:b`. -/
theorem equality_and_ordering_lexicographic_witness :
    Identifier.cmp (⟨"a".data, "a".data⟩ : Identifier Unit)
      ⟨"a".data, "b".data⟩ = strCmp "a".data "b".data :=
  equality_and_ordering_lexicographic.2.2.2.1 Unit
    ⟨"a".data, "a".data⟩ ⟨"a".data, "b".data⟩ rfl

/-- Claim C9: whenever the underline formatter succeeds, its output is the
label, a space, the input, a newline, then an indentation of one space plus
the label's display width, then a buffer of the input's total display
width holding the marker character exactly at the start column of every
flagged character (so a single marker occupies only the starting column of
a wide character, and any wide character shifts the columns of all later
characters by its full width); moreover each `byte_to_column` entry pairs
the k-th character with the byte length and the display width of the
characters before it. -/
theorem underline_alignment :
    (∀ (w : Char → Option Nat) (label input : List Char)
      (bad_indices : List Nat) (character : Char) (out : List Char),
      make_underline_message w label input bad_indices character =
        some out →
      out = label ++ [' '] ++ input ++ ['\n'] ++
        List.replicate (1 + widthSum w label) ' ' ++
        (List.range (widthSum w input)).map
          (fun j => if markedCol w input bad_indices j then character
            else ' ')) ∧
    (∀ (w : Char → Option Nat) (input : List Char),
      byteToColumn w 0 0 input =
        List.zipWith (fun p c => (p.1, p.2, chWidth w c))
          ((List.range input.length).map
            (fun k => (utf8Sum (input.take k), widthSum w (input.take k))))
          input) := by
  constructor
  · intro w label input bads ch out h
    simp only [make_underline_message] at h
    cases happ : applyMarkers (byteToColumn w 0 0 input) ch bads
        (List.replicate (widthSum w input) ' ') with
    | none => rw [happ] at h; simp at h
    | some uv =>
      rw [happ] at h
      simp only [Option.some.injEq] at h
      subst h
      rw [replicate_eq_map_range] at happ
      rw [applyMarkers_eq _ ch bads (widthSum w input) (fun _ => ' ')
        uv happ]
      rfl
  · intro w input
    simpa using byteToColumn_eq w input 0 0

/-- Claim C9 (witness): the double-width character `世` occupies two
columns, so the marker for the flagged `@` (byte offset 3) lands two
columns after the indentation, not one. -/
theorem underline_alignment_witness :
    ("ns: 世@\n      ^".data : List Char) =
      "ns:".data ++ [' '] ++ "世@".data ++ ['\n'] ++
        List.replicate (1 + widthSum unicodeCharWidth "ns:".data) ' ' ++
        (List.range (widthSum unicodeCharWidth "世@".data)).map
          (fun j => if markedCol unicodeCharWidth "世@".data [3] j then '^'
            else ' ') :=
  underline_alignment.1 unicodeCharWidth "ns:".data "世@".data [3] '^'
    ("ns: 世@\n      ^".data) (by decide)

/-- Claim C10: recasting the phantom kind (and erasing it) never changes
the namespace or the value. -/
theorem cast_preserves_components :
    ∀ (T U : Type) (id : Identifier T),
      (id.cast U).ns = id.ns ∧ (id.cast U).value = id.value ∧
      id.erase = id.cast Unit ∧ (id.erase).ns = id.ns ∧
      (id.erase).value = id.value :=
  fun _ _ _ => ⟨rfl, rfl, rfl, rfl, rfl⟩
